import Mathlib

/-!
Verification of the birthday-reminder record store of
`mko_birth_reminder_bot` against its natural-language specification.

The Lean definitions below are a shallow embedding of the Python source:

* `core/db_handler.py` — the per-user SQLite table (`TGUserData`), its
  date-offset reminder queries (`_get_upcoming_dates`,
  `_get_upcoming_dates_custom_column`, `get_default_reminders`,
  `get_custom_reminders`, `get_all_reminders`), the interval query
  (`_get_data_in_dates_interval`) and `del_record_by_id`;
* `core/utils.py` — `parse_date` (with `DATE_PATTERNS`), `clean_text`,
  `validate_data`;
* `core/csv_handler.py` — `CSVHandler.read_csv`;
* `operator.py` — `Operator.import_data`, `Operator.add_record`.

A user table is modelled as a `List` of rows in insertion order; SQLite's
`strftime('%m-%d', d)` on a canonically stored `YYYY-MM-DD` text date is
modelled as the pair `(month, day)` — the zero-padded `MM-DD` string
representation is order- and equality-isomorphic to the lexicographic
order on these pairs (proved below as `mdChars_le_iff`), so nothing is
lost by working with pairs.  Python's `datetime + timedelta(days=k)` and
SQLite's `DATE(d, '+k days')` are both proleptic-Gregorian day addition,
embedded as `Date.addDays`.
-/

namespace BirthBot

/-- A calendar date, as used by Python `datetime.date`. -/
structure Date where
  year : Nat
  month : Nat
  day : Nat
deriving DecidableEq, Repr

/-- Gregorian leap-year rule (Python `calendar.isleap`). -/
def isLeap (y : Nat) : Bool :=
  (y % 4 == 0 && y % 100 != 0) || (y % 400 == 0)

/-- Number of days in a month of a given year. -/
def daysInMonth (y m : Nat) : Nat :=
  if m == 2 then (if isLeap y then 29 else 28)
  else if m == 4 || m == 6 || m == 9 || m == 11 then 30
  else 31

/-- A date is valid when its month and day are in Gregorian range
(years are restricted to Python `datetime`'s 1..9999). -/
def Date.valid (d : Date) : Prop :=
  1 ≤ d.year ∧ d.year ≤ 9999 ∧
  1 ≤ d.month ∧ d.month ≤ 12 ∧
  1 ≤ d.day ∧ d.day ≤ daysInMonth d.year d.month

instance (d : Date) : Decidable d.valid := by
  unfold Date.valid; infer_instance

/-- Successor day in the proleptic Gregorian calendar. -/
def Date.next (d : Date) : Date :=
  if d.day < daysInMonth d.year d.month then ⟨d.year, d.month, d.day + 1⟩
  else if d.month < 12 then ⟨d.year, d.month + 1, 1⟩
  else ⟨d.year + 1, 1, 1⟩

/-- `d + k` days; embeds both Python `d + timedelta(days=k)` and SQLite
`DATE(d, '+k days')` for a non-negative day count `k`. -/
def Date.addDays (d : Date) : Nat → Date
  | 0 => d
  | k + 1 => (Date.next d).addDays k

/-- The month-day projection: the model of SQLite
`strftime('%m-%d', date)` on a canonically stored date.  The actual
`MM-DD` string is recovered by `mdChars` below, which is proved to be an
order embedding, so equality/range comparisons of the strings coincide
with comparisons of these pairs. -/
def monthDay (d : Date) : Nat × Nat := (d.month, d.day)

/-- Two-digit zero-padded decimal rendering (`%m` / `%d`), as chars. -/
def pad2 (n : Nat) : List Char := [Nat.digitChar (n / 10), Nat.digitChar (n % 10)]

/-- The characters of the `strftime('%m-%d', ·)` result for month-day
`(m, d)`. -/
def mdChars (md : Nat × Nat) : List Char := pad2 md.1 ++ '-' :: pad2 md.2

/-- Byte-wise (code-point) string order: the comparison SQLite's
`BETWEEN` performs on `TEXT` values (all characters here are ASCII). -/
def lexLe : List Char → List Char → Bool
  | [], _ => true
  | _ :: _, [] => false
  | a :: as, b :: bs =>
    if a.toNat < b.toNat then true
    else if a.toNat = b.toNat then lexLe as bs
    else false

/-- Lexicographic order on month-day pairs, matching both Python tuple
comparison (`start_month_day <= end_month_day` in the source) and — via
`mdChars_le_iff` — SQLite string comparison of `MM-DD` renderings. -/
def mdLe (a b : Nat × Nat) : Bool :=
  a.1 < b.1 || (a.1 == b.1 && a.2 ≤ b.2)

/-- A month-day pair that can arise from a date (`1-12` / `1-31`). -/
def mdOk (md : Nat × Nat) : Prop :=
  1 ≤ md.1 ∧ md.1 ≤ 12 ∧ 1 ≤ md.2 ∧ md.2 ≤ 31

instance (md : Nat × Nat) : Decidable (mdOk md) := by
  unfold mdOk; infer_instance

/-!  ## Record model

One row of a per-user table `id_<tg_user_id>` with the default schema of
`DatabaseSettings.columns` (`core/config.py`): `id`, five free-text
columns, `birth_date TEXT NOT NULL` (stored canonically, modelled as a
`Date`), and the integer `notice_before_days` column used by the custom
reminder channel. -/
structure BRec where
  id : Nat
  company : List Char
  last_name : List Char
  first_name : List Char
  position : List Char
  gift_category : List Char
  birth_date : Date
  notice_before_days : Nat
deriving DecidableEq, Repr

/-- `SELECT *` header of a user table, in schema order
(`DatabaseSettings.columns` minus nothing). -/
def dbColumnNames : List String :=
  ["id", "company", "last_name", "first_name", "position",
   "gift_category", "birth_date", "notice_before_days"]

/-- `DatabaseSettings.default_notice` (`core/config.py`). -/
def default_notice : List Nat := [0, 1, 2, 3, 5, 7, 14]

/-- `TGUserData._get_upcoming_dates(notice_period_days, date)`:
rows whose `strftime('%m-%d', birth_date)` equals the month-day of
`date + notice_period_days days`. -/
def get_upcoming_dates (tbl : List BRec) (notice_period_days : Nat)
    (date : Date) : List BRec :=
  tbl.filter (fun r => monthDay r.birth_date = monthDay (date.addDays notice_period_days))

/-- `TGUserData.get_default_reminders(date)`: union (list concatenation,
in offset order) of `_get_upcoming_dates` over the configured
`default_notice` offsets. -/
def get_default_reminders (tbl : List BRec) (date : Date) : List BRec :=
  (default_notice.map (fun k => get_upcoming_dates tbl k date)).flatten

/-- `TGUserData._get_upcoming_dates_custom_column(date)` (which is what
`get_custom_reminders` returns): rows whose `strftime('%m-%d',
birth_date)` equals `strftime('%m-%d', DATE(date, '+' ||
notice_before_days || ' days'))`, each row compared against its own
stored offset. -/
def get_custom_reminders (tbl : List BRec) (date : Date) : List BRec :=
  tbl.filter (fun r => monthDay r.birth_date = monthDay (date.addDays r.notice_before_days))

/-- `TGUserData.get_all_reminders(date)`: concatenates the default and
custom match lists; an empty result is the empty dict `{}` (here
`none`), otherwise the column header list together with the match rows
de-duplicated by full row-tuple equality (`list(set(tuple(...)))`,
modelled order-insensitively by `List.dedup`). -/
def get_all_reminders (tbl : List BRec) (date : Date) :
    Option (List String × List BRec) :=
  let reminders := get_default_reminders tbl date ++ get_custom_reminders tbl date
  if reminders = [] then none
  else some (dbColumnNames, reminders.dedup)

/-- `TGUserData._get_data_in_dates_interval(start_date, end_date)`:
the SQL `WHERE` filter on one row's month-day.  The Python code compares
`(month, day)` tuples to pick the branch and then issues string
`BETWEEN`s on `strftime('%m-%d', ·)`; by `mdChars_le_iff` the string
comparisons are modelled by `mdLe` on pairs. -/
def in_dates_interval (start_date end_date : Date) (md : Nat × Nat) : Bool :=
  let s := monthDay start_date
  let e := monthDay end_date
  if mdLe s e then
    -- Range within a single year
    mdLe s md && mdLe md e
  else
    -- Range crossing the year boundary
    (mdLe s md && mdLe md (12, 31)) || (mdLe (1, 1) md && mdLe md e)

/-- The rows `_get_data_in_dates_interval` returns. -/
def get_data_in_dates_interval (tbl : List BRec) (start_date end_date : Date) :
    List BRec :=
  tbl.filter (fun r => in_dates_interval start_date end_date (monthDay r.birth_date))

/-- Spec-side reading of the interval query (`Modelled from the spec`'s
words for comparison, not from the code): the month-day lies in the
requested month-day window, which wraps around the end of the year when
the end month-day is smaller than the start month-day. -/
def monthDayInWindow (s e md : Nat × Nat) : Prop :=
  if mdLe s e = true then (mdLe s md = true ∧ mdLe md e = true)
  else (mdLe s md = true ∨ mdLe md e = true)

instance (s e md : Nat × Nat) : Decidable (monthDayInWindow s e md) := by
  unfold monthDayInWindow; infer_instance

/-- Concrete record used in the claim instances. -/
def mkRec (n : Nat) (bd : Date) (notice : Nat) : BRec :=
  ⟨n, [], [], [], [], [], bd, notice⟩

/-!  ## Text cleaning (`core/utils.py` `clean_text`) -/

/-- Python (unicode) whitespace: the characters matched by `\s` in a
`str` regex and stripped by `str.strip()`. -/
def isPySpace (c : Char) : Bool :=
  let n := c.toNat
  (9 ≤ n && n ≤ 13) || n == 32 || (28 ≤ n && n ≤ 31) || n == 0x85 ||
  n == 0xA0 || n == 0x1680 || (0x2000 ≤ n && n ≤ 0x200A) || n == 0x2028 ||
  n == 0x2029 || n == 0x202F || n == 0x205F || n == 0x3000

/-- The character class kept by `clean_text`: the complement of the
removal regex `[^а-яА-Яa-zA-Z0-9\s\-–]`, i.e. Cyrillic а-я / А-Я, Latin
a-z / A-Z, digits, whitespace, hyphen-minus and en-dash. -/
def allowedChar (c : Char) : Bool :=
  let n := c.toNat
  (0x430 ≤ n && n ≤ 0x44F) || (0x410 ≤ n && n ≤ 0x42F) ||
  (97 ≤ n && n ≤ 122) || (65 ≤ n && n ≤ 90) || (48 ≤ n && n ≤ 57) ||
  isPySpace c || n == 45 || n == 0x2013

/-- Python `str.strip()`: drop leading and trailing whitespace
(`List.rdropWhile p` is `reverse ∘ dropWhile p ∘ reverse`). -/
def pyStrip (l : List Char) : List Char :=
  (l.dropWhile isPySpace).rdropWhile isPySpace

/-- `clean_text(text)` = `re.sub(r'[^а-яА-Яa-zA-Z0-9\s\-–]', '', text).strip()`:
delete every character outside the whitelist, then strip. -/
def clean_text (l : List Char) : List Char :=
  pyStrip (l.filter allowedChar)

/-!  ## Identifier coercion and `del_record_by_id` -/

/-- A value passed as a record identifier: the callers hand either an
`int` or a `str` (free text typed by the user) to
`del_record_by_id`. -/
inductive PyVal where
  | int (n : Int)
  | str (s : List Char)
deriving DecidableEq, Repr

def isDigitChar (c : Char) : Bool := 48 ≤ c.toNat && c.toNat ≤ 57

/-- Digit tail of a Python integer literal: further digits, with single
underscores allowed between digits (PEP 515). -/
def digitsCore : List Char → Nat → Option Nat
  | [], acc => some acc
  | '_' :: c :: rest, acc =>
    if isDigitChar c then digitsCore rest (acc * 10 + (c.toNat - 48)) else none
  | c :: rest, acc =>
    if isDigitChar c then digitsCore rest (acc * 10 + (c.toNat - 48)) else none

/-- A non-empty digit string (first char must be a digit). -/
def parseUInt (l : List Char) : Option Nat :=
  match l with
  | [] => none
  | c :: rest => if isDigitChar c then digitsCore rest (c.toNat - 48) else none

/-- Python `int(x)` for the identifier values above: an `int` is
returned as is; a `str` is stripped of surrounding whitespace and must
be an optionally signed decimal numeral, otherwise `ValueError`
(`none`). -/
def pyInt : PyVal → Option Int
  | .int n => some n
  | .str s =>
    let t := ((s.dropWhile isPySpace).reverse.dropWhile isPySpace).reverse
    match t with
    | '+' :: rest => (parseUInt rest).map Int.ofNat
    | '-' :: rest => (parseUInt rest).map (fun n => -(Int.ofNat n))
    | rest => (parseUInt rest).map Int.ofNat

/-- Outcome of a store operation: `WrongInput` raised, or success. -/
inductive DbOutcome where
  | wrongInput
  | ok
deriving DecidableEq, Repr

/-- `TGUserData.del_record_by_id(record_id)`: coerce the identifier
with `int(...)`; on `ValueError` raise `WrongInput` (the table is
untouched); otherwise run `DELETE ... WHERE id = ?`, which keeps every
row whose id differs and succeeds whether or not a row matched. -/
def del_record_by_id (tbl : List BRec) (record_id : PyVal) :
    DbOutcome × List BRec :=
  match pyInt record_id with
  | none => (.wrongInput, tbl)
  | some rid => (.ok, tbl.filter (fun r => (r.id : Int) ≠ rid))

/-!  ## Date parsing (`core/utils.py` `parse_date` / `DATE_PATTERNS`)

`DATE_PATTERNS = ('%d.%m.%Y', '%Y.%m.%d', '%d-%m-%Y', '%Y-%m-%d',
'%d/%m/%Y', '%Y/%m/%d')`: each pattern is a separator together with a
field order.  `strptime` on such a pattern is modelled per CPython's
`_strptime`: `%d` matches 1-2 digits valued 1..31, `%m` 1-2 digits
valued 1..12, `%Y` exactly 4 digits, the whole string must be consumed,
and constructing the `datetime` additionally requires the day to exist
in the month and the year to be ≥ 1 (else `ValueError`, i.e. `none`).
Since the numeric fields contain no separator characters, the
backtracking regex match is equivalent to splitting the string on the
separator. -/

inductive FieldOrder where
  | dmy
  | ymd
deriving DecidableEq, Repr

/-- The fixed ordered accepted formats of `DATE_PATTERNS`. -/
def DATE_PATTERNS : List (Char × FieldOrder) :=
  [('.', .dmy), ('.', .ymd), ('-', .dmy), ('-', .ymd), ('/', .dmy), ('/', .ymd)]

/-- Split a char list on a separator (like `str.split(sep)`: n
separators produce n+1 parts, possibly empty). -/
def splitOnChar (sep : Char) : List Char → List (List Char)
  | [] => [[]]
  | c :: rest =>
    match splitOnChar sep rest with
    | [] => [[]]
    | h :: t => if c = sep then [] :: h :: t else (c :: h) :: t

/-- Join with a separator: left inverse of `splitOnChar`. -/
def joinSep (sep : Char) : List (List Char) → List Char
  | [] => []
  | [p] => p
  | p :: ps => p ++ sep :: joinSep sep ps

/-- Decimal value of a digit string. -/
def charsToNat (l : List Char) : Nat :=
  l.foldl (fun acc c => acc * 10 + (c.toNat - 48)) 0

/-- `%d`: CPython regex `(3[01]|[12]\d|0[1-9]|[1-9])` = 1-2 digits
valued 1..31. -/
def isDayField (l : List Char) : Bool :=
  l.all isDigitChar && (l.length == 1 || l.length == 2) &&
    (1 ≤ charsToNat l && charsToNat l ≤ 31)

/-- `%m`: CPython regex `(1[0-2]|0[1-9]|[1-9])` = 1-2 digits valued
1..12. -/
def isMonthField (l : List Char) : Bool :=
  l.all isDigitChar && (l.length == 1 || l.length == 2) &&
    (1 ≤ charsToNat l && charsToNat l ≤ 12)

/-- `%Y`: CPython regex `(\d\d\d\d)` = exactly 4 digits. -/
def isYearField (l : List Char) : Bool :=
  l.all isDigitChar && l.length == 4

/-- `datetime.strptime(s, pattern).date()` for one pattern of
`DATE_PATTERNS`. -/
def strptime (sep : Char) (ord : FieldOrder) (s : List Char) : Option Date :=
  match splitOnChar sep s with
  | [f1, f2, f3] =>
    let fields := match ord with
      | .dmy => (f1, f2, f3)
      | .ymd => (f3, f2, f1)
    match fields with
    | (ds, ms, ys) =>
      if isDayField ds && isMonthField ms && isYearField ys then
        let d : Date := ⟨charsToNat ys, charsToNat ms, charsToNat ds⟩
        if d.valid then some d else none
      else none
  | _ => none

/-- First successful parse over a pattern list (the `for pattern in
date_patterns: try ... except: continue` loop). -/
def firstParse : List (Char × FieldOrder) → List Char → Option Date
  | [], _ => none
  | p :: ps, s =>
    match strptime p.1 p.2 s with
    | some d => some d
    | none => firstParse ps s

/-- `parse_date(date_str)`: try every pattern of `DATE_PATTERNS` in
order, return the first parsed date, `None` if all fail (parse errors
are swallowed, never raised). -/
def parse_date (s : List Char) : Option Date := firstParse DATE_PATTERNS s

/-- Four-digit zero-padded decimal rendering (`%Y`). -/
def pad4 (n : Nat) : List Char :=
  [Nat.digitChar (n / 1000 % 10), Nat.digitChar (n / 100 % 10),
   Nat.digitChar (n / 10 % 10), Nat.digitChar (n % 10)]

/-- `d.strftime('%Y-%m-%d')`: the canonical stored form. -/
def isoChars (d : Date) : List Char :=
  pad4 d.year ++ '-' :: (pad2 d.month ++ '-' :: pad2 d.day)

/-- Date normalization as performed on the date column: parse with
`parse_date`, then reformat with `strftime(self.date_format)`
(`%Y-%m-%d`); an unparsed string yields the marker `none`. -/
def normalize_date (s : List Char) : Option (List Char) :=
  (parse_date s).map isoChars

/-!  Spec-side reading of "matches an accepted format", written from the
spec's words: the string decomposes into three fields joined by the
pattern's separator, each field being the (optionally zero-padded)
decimal numeral of the corresponding component of a valid date. -/

/-- A 1-2 digit numeral of `v` (zero-padded or bare). -/
def repr2 (l : List Char) (v : Nat) : Prop :=
  l = pad2 v ∨ (v ≤ 9 ∧ l = [Nat.digitChar v])

/-- The day field of the spec: numeral of a value in 1..31. -/
def dayRepr (l : List Char) (v : Nat) : Prop :=
  1 ≤ v ∧ v ≤ 31 ∧ repr2 l v

/-- The month field of the spec: numeral of a value in 1..12. -/
def monthRepr (l : List Char) (v : Nat) : Prop :=
  1 ≤ v ∧ v ≤ 12 ∧ repr2 l v

/-- The year field of the spec: four-digit numeral. -/
def yearRepr (l : List Char) (v : Nat) : Prop :=
  v ≤ 9999 ∧ l = pad4 v

/-- `MatchesPattern sep ord s d`: the string `s` is the valid date `d`
written in the day-month-year (or year-month-day) format with the given
separator. -/
def MatchesPattern (sep : Char) (ord : FieldOrder) (s : List Char)
    (d : Date) : Prop :=
  d.valid ∧ ∃ f1 f2 f3 : List Char,
    s = f1 ++ sep :: (f2 ++ sep :: f3) ∧
    (match ord with
     | .dmy => dayRepr f1 d.day ∧ monthRepr f2 d.month ∧ yearRepr f3 d.year
     | .ymd => yearRepr f1 d.year ∧ monthRepr f2 d.month ∧ dayRepr f3 d.day)

/-!  ## CSV reading (`core/csv_handler.py` `CSVHandler.read_csv`) -/

/-- `CONFIG.DATABASE.columns` as (name, declared SQL type) pairs
(`core/config.py`). -/
def db_schema : List (String × String) :=
  [("id", "INTEGER PRIMARY KEY AUTOINCREMENT"), ("company", "TEXT"),
   ("last_name", "TEXT"), ("first_name", "TEXT"), ("position", "TEXT"),
   ("gift_category", "TEXT"), ("birth_date", "TEXT NOT NULL"),
   ("notice_before_days", "INTEGER")]

/-- `'PRIMARY' in col_type`. -/
def hasPrimary (t : String) : Bool := decide ("PRIMARY".data <:+: t.data)

/-- `CSVHandler._get_columns(columns)`: the schema column names whose
declared type does not contain `PRIMARY`. -/
def get_columns (cols : List (String × String)) : List String :=
  (cols.filter (fun kv => !hasPrimary kv.2)).map (fun kv => kv.1)

/-- `self.data_column_names`: expected CSV columns = schema minus the
auto-increment primary key. -/
def data_column_names : List String := get_columns db_schema

/-- Outcome of the two pandas reads inside `read_csv`: the file may be
absent (`FileNotFoundError`), unreadable by the parser
(`ParserError`/`DataError`, possible already on the `nrows=1` read), or
readable with a known first-row column count; in the readable case the
subsequent full parse can itself still fail (`none`) or produce rows. -/
inductive CsvFile where
  | missing
  | malformed
  | ok (firstRowCols : Nat) (fullParse : Option (List (List String)))

/-- The CSV error taxonomy of `core/errors.py` reachable from
`read_csv`. -/
inductive CsvError where
  | columnMismatch
  | readCSVError
deriving DecidableEq, Repr

/-- `CSVHandler.read_csv(csv_file)`: read only the first row and count
its columns; on a count mismatch raise `ColumnMismatch` (before the
full file is parsed); wrap a missing file or a parser failure into
`ReadCSVError`; otherwise return the parsed rows. -/
def read_csv : CsvFile → Except CsvError (List (List String))
  | .missing => .error .readCSVError
  | .malformed => .error .readCSVError
  | .ok firstRowCols fullParse =>
    if firstRowCols ≠ data_column_names.length then .error .columnMismatch
    else
      match fullParse with
      | none => .error .readCSVError
      | some rows => .ok rows

/-!  ## Operator façade (`operator.py`) -/

/-- `Operator.import_data(csv_file)` after the CSV has been read and
cleaned into `df` rows: reject when the current record count plus the
new rows would exceed the configured limit (`Operator.USERS_LIMIT`,
from `CONFIG.DATABASE.users_limit`), otherwise bulk-insert (`add_data`
appends, called only when there is at least one row) and report the
number of rows. -/
def import_data (users_limit records_count : Nat)
    (tbl df : List (List String)) : String × List (List String) :=
  if records_count + df.length > users_limit then
    ("Unable to load records due to the maximum record limit being reached." ++
     "\nThe file contains " ++ toString df.length ++
     " records, and you already have " ++ toString records_count ++
     " in the database." ++
     "\nThe allowed maximum is " ++ toString users_limit ++ ".", tbl)
  else
    ("Data successfully imported. Number of rows: " ++
     toString df.length ++ ".",
     if df.length > 0 then tbl ++ df else tbl)

/-- `CONFIG.DATABASE.date_column`. -/
def date_column : String := "birth_date"

/-- Python `data.get(key)` over a keyword-argument map (keys are
unique), values being free text. -/
def lookupField (data : List (String × List Char)) (k : String) :
    Option (List Char) :=
  (data.find? (fun kv => kv.1 == k)).map (fun kv => kv.2)

/-- `validate_data(column_names, date_column, date_format, data)`
(`core/utils.py`): keep only whitelisted non-date columns with
`clean_text` applied, then, when a non-empty date value is present,
append it reformatted through `parse_date`/`strftime` — an unparsable
date is only logged, so the date key is dropped. -/
def validate_data (data : List (String × List Char)) :
    List (String × List Char) :=
  let text := (data.filter (fun kv =>
      decide (kv.1 ∈ dbColumnNames) && !(kv.1 == date_column))).map
      (fun kv => (kv.1, clean_text kv.2))
  match lookupField data date_column with
  | none => text
  | some v =>
    if v = [] then text
    else
      match parse_date v with
      | some d => text ++ [(date_column, isoChars d)]
      | none => text

/-- `TGUserData.add_record(**data)`: return silently (warning log only)
when the mandatory date column is absent; otherwise validate and, when
the validated map is non-empty, run the INSERT — which violates the
`birth_date TEXT NOT NULL` constraint whenever validation dropped the
date, an error `perform_query` logs and swallows, leaving the table
unchanged. -/
def tg_add_record (tbl : List (List (String × List Char)))
    (data : List (String × List Char)) : List (List (String × List Char)) :=
  if lookupField data date_column = none then tbl
  else
    let valid_data := validate_data data
    if valid_data = [] then tbl
    else if lookupField valid_data date_column = none then tbl
    else tbl ++ [valid_data]

/-- `Operator.add_record(**data)`: refuse over the record limit,
otherwise call the store layer and unconditionally report success. -/
def operator_add_record (users_limit records_count : Nat)
    (tbl : List (List (String × List Char)))
    (data : List (String × List Char)) :
    String × List (List (String × List Char)) :=
  if records_count + 1 > users_limit then
    ("Maximum record limit reached: " ++ toString users_limit ++ ".", tbl)
  else ("Record successfully added.", tg_add_record tbl data)

theorem lexLe_nil (l : List Char) : lexLe [] l = true := rfl

theorem lexLe_cons_iff (a b : Char) (as bs : List Char) :
    lexLe (a :: as) (b :: bs) = true ↔
      (a.toNat < b.toNat ∨ (a.toNat = b.toNat ∧ lexLe as bs = true)) := by
  simp only [lexLe]
  split_ifs with h1 h2
  · simp [h1]
  · simp [h1, h2]
  · simp [h1, h2]

theorem digitChar_toNat (x : Nat) (h : x < 10) :
    (Nat.digitChar x).toNat = 48 + x := by
  interval_cases x <;> rfl

theorem pad2_le_iff (a b : Nat) (ha : a < 100) (hb : b < 100) :
    lexLe (pad2 a) (pad2 b) = true ↔ a ≤ b := by
  have ha1 : a / 10 < 10 := by omega
  have hb1 : b / 10 < 10 := by omega
  have ha0 : a % 10 < 10 := Nat.mod_lt _ (by norm_num)
  have hb0 : b % 10 < 10 := Nat.mod_lt _ (by norm_num)
  simp only [pad2, lexLe_cons_iff, lexLe_nil, and_true,
    digitChar_toNat _ ha1, digitChar_toNat _ hb1,
    digitChar_toNat _ ha0, digitChar_toNat _ hb0]
  omega

/-- The zero-padded `MM-DD` string order coincides with lexicographic
order on month-day pairs: comparing pairs is a faithful model of
SQLite's string `BETWEEN` / `=` on `strftime('%m-%d', ·)` values. -/
theorem mdChars_le_iff (a b : Nat × Nat) (ha : mdOk a) (hb : mdOk b) :
    lexLe (mdChars a) (mdChars b) = true ↔ mdLe a b = true := by
  obtain ⟨ha1, ha2, ha3, ha4⟩ := ha
  obtain ⟨hb1, hb2, hb3, hb4⟩ := hb
  have hm1 : a.1 / 10 < 10 := by omega
  have hm2 : b.1 / 10 < 10 := by omega
  have hd1 : a.2 / 10 < 10 := by omega
  have hd2 : b.2 / 10 < 10 := by omega
  have hm0 : a.1 % 10 < 10 := Nat.mod_lt _ (by norm_num)
  have hn0 : b.1 % 10 < 10 := Nat.mod_lt _ (by norm_num)
  have he0 : a.2 % 10 < 10 := Nat.mod_lt _ (by norm_num)
  have hf0 : b.2 % 10 < 10 := Nat.mod_lt _ (by norm_num)
  have hdash : ('-').toNat = 45 := rfl
  simp only [mdChars, pad2, List.cons_append, List.nil_append,
    lexLe_cons_iff, lexLe_nil, and_true, mdLe,
    digitChar_toNat _ hm1, digitChar_toNat _ hm2,
    digitChar_toNat _ hd1, digitChar_toNat _ hd2,
    digitChar_toNat _ hm0, digitChar_toNat _ hn0,
    digitChar_toNat _ he0, digitChar_toNat _ hf0, hdash,
    Bool.or_eq_true, Bool.and_eq_true, decide_eq_true_eq, beq_iff_eq]
  norm_num
  omega

theorem daysInMonth_le (y m : Nat) : daysInMonth y m ≤ 31 := by
  unfold daysInMonth
  split_ifs <;> norm_num

theorem monthDay_mdOk (d : Date) (h : d.valid) : mdOk (monthDay d) := by
  obtain ⟨_, _, h3, h4, h5, h6⟩ := h
  exact ⟨h3, h4, h5, le_trans h6 (daysInMonth_le d.year d.month)⟩

/-- C1: a record is in the default-match set for reference date `D` iff
for some offset `k` in the configured default-offset list
`{0,1,2,3,5,7,14}` the month-day of its birth date equals the month-day
of `D + k` days, the year being ignored; in particular a record with
birth date 1990-03-22 is matched for reference date 2025-03-15 (offset
7, since 15+7=22) and, with offset 7 alone, not for 2025-03-16. -/
theorem default_reminders_correct :
    (∀ (tbl : List BRec) (r : BRec) (D : Date),
      r ∈ get_default_reminders tbl D ↔
        r ∈ tbl ∧ ∃ k ∈ default_notice,
          monthDay r.birth_date = monthDay (D.addDays k)) ∧
    (mkRec 1 ⟨1990, 3, 22⟩ 0 ∈
        get_default_reminders [mkRec 1 ⟨1990, 3, 22⟩ 0] ⟨2025, 3, 15⟩) ∧
    (mkRec 1 ⟨1990, 3, 22⟩ 0 ∈
        get_upcoming_dates [mkRec 1 ⟨1990, 3, 22⟩ 0] 7 ⟨2025, 3, 15⟩) ∧
    (mkRec 1 ⟨1990, 3, 22⟩ 0 ∉
        get_upcoming_dates [mkRec 1 ⟨1990, 3, 22⟩ 0] 7 ⟨2025, 3, 16⟩) := by
  refine ⟨?_, by decide, by decide, by decide⟩
  intro tbl r D
  constructor
  · intro h
    obtain ⟨l, hl, hrl⟩ := List.mem_flatten.1 h
    obtain ⟨k, hk, rfl⟩ := List.mem_map.1 hl
    obtain ⟨hr, hmd⟩ := List.mem_filter.1 hrl
    exact ⟨hr, k, hk, of_decide_eq_true hmd⟩
  · rintro ⟨hr, k, hk, hmd⟩
    exact List.mem_flatten.2 ⟨_, List.mem_map.2 ⟨k, hk, rfl⟩,
      List.mem_filter.2 ⟨hr, decide_eq_true hmd⟩⟩

/-- Closed instance of `default_reminders_correct`: the 1990-03-22
record is matched on 2025-03-15. -/
theorem default_reminders_correct_witness :
    mkRec 1 ⟨1990, 3, 22⟩ 0 ∈
      get_default_reminders [mkRec 1 ⟨1990, 3, 22⟩ 0] ⟨2025, 3, 15⟩ :=
  default_reminders_correct.2.1

/-- C2 (counterexample): the claim that the record with birth date
2025-01-10 and custom offset 5 matches no reference date other than
2025-01-05 is false: the custom channel compares month-days only, so
2024-01-05 (a different day) also matches. -/
theorem custom_reminder_other_year_matches :
    mkRec 1 ⟨2025, 1, 10⟩ 5 ∈
      get_custom_reminders [mkRec 1 ⟨2025, 1, 10⟩ 5] ⟨2024, 1, 5⟩ ∧
    (Date.mk 2024 1 5) ≠ (Date.mk 2025 1 5) := by
  constructor
  · decide
  · decide

/-- C2 (amended): a record is in the custom-channel match set for
reference date `D` iff the month-day of its birth date equals the
month-day of `D` plus the record's own stored custom offset (the year
is ignored); the record with birth date 2025-01-10 and custom offset 5
matches exactly those reference dates `D` with
`month-day(D + 5 days) = 01-10` — among them 2025-01-05 and the same
calendar day of other years, such as 2024-01-05 — and no day whose
shifted month-day differs, such as 2025-01-06. -/
theorem custom_reminders_correct :
    (∀ (tbl : List BRec) (r : BRec) (D : Date),
      r ∈ get_custom_reminders tbl D ↔
        r ∈ tbl ∧
          monthDay r.birth_date = monthDay (D.addDays r.notice_before_days)) ∧
    (∀ D : Date,
      mkRec 1 ⟨2025, 1, 10⟩ 5 ∈
          get_custom_reminders [mkRec 1 ⟨2025, 1, 10⟩ 5] D ↔
        monthDay (D.addDays 5) = (1, 10)) ∧
    (mkRec 1 ⟨2025, 1, 10⟩ 5 ∈
        get_custom_reminders [mkRec 1 ⟨2025, 1, 10⟩ 5] ⟨2025, 1, 5⟩) ∧
    (mkRec 1 ⟨2025, 1, 10⟩ 5 ∈
        get_custom_reminders [mkRec 1 ⟨2025, 1, 10⟩ 5] ⟨2024, 1, 5⟩) ∧
    (mkRec 1 ⟨2025, 1, 10⟩ 5 ∉
        get_custom_reminders [mkRec 1 ⟨2025, 1, 10⟩ 5] ⟨2025, 1, 6⟩) := by
  refine ⟨?_, ?_, by decide, by decide, by decide⟩
  · intro tbl r D
    constructor
    · intro h
      obtain ⟨hr, hmd⟩ := List.mem_filter.1 h
      exact ⟨hr, of_decide_eq_true hmd⟩
    · rintro ⟨hr, hmd⟩
      exact List.mem_filter.2 ⟨hr, decide_eq_true hmd⟩
  · intro D
    constructor
    · intro h
      exact (of_decide_eq_true (List.mem_filter.1 h).2).symm
    · intro h
      exact List.mem_filter.2 ⟨List.mem_singleton.2 rfl, decide_eq_true h.symm⟩

/-- Closed instance of `custom_reminders_correct`: the custom-offset
record is matched on 2025-01-05. -/
theorem custom_reminders_correct_witness :
    mkRec 1 ⟨2025, 1, 10⟩ 5 ∈
      get_custom_reminders [mkRec 1 ⟨2025, 1, 10⟩ 5] ⟨2025, 1, 5⟩ :=
  custom_reminders_correct.2.2.1

/-- C3: the interval query returns exactly the rows (of valid birth
date) whose birth-date month-day lies in the requested month-day
window; when the end month-day is smaller than the start month-day the
window wraps across the year boundary (the code splits it into two
`BETWEEN` sub-ranges joined by `OR`); in particular the interval
2024-12-20 .. 2025-01-10 keeps rows with month-days 12-25 and 01-05 and
drops 06-15. -/
theorem dates_interval_correct :
    (∀ (tbl : List BRec) (start_date end_date : Date) (r : BRec),
      r.birth_date.valid →
        (r ∈ get_data_in_dates_interval tbl start_date end_date ↔
          r ∈ tbl ∧
            monthDayInWindow (monthDay start_date) (monthDay end_date)
              (monthDay r.birth_date))) ∧
    (get_data_in_dates_interval
        [mkRec 1 ⟨1999, 12, 25⟩ 0, mkRec 2 ⟨2001, 1, 5⟩ 0, mkRec 3 ⟨1980, 6, 15⟩ 0]
        ⟨2024, 12, 20⟩ ⟨2025, 1, 10⟩ =
      [mkRec 1 ⟨1999, 12, 25⟩ 0, mkRec 2 ⟨2001, 1, 5⟩ 0]) := by
  refine ⟨?_, by decide⟩
  intro tbl start_date end_date r hv
  obtain ⟨hm1, hm2, hd1, hd2⟩ := monthDay_mdOk r.birth_date hv
  simp only [get_data_in_dates_interval, List.mem_filter]
  refine and_congr_right (fun _ => ?_)
  simp only [in_dates_interval, monthDayInWindow, mdLe]
  split_ifs with hse
  · simp [Bool.and_eq_true]
  · simp only [Bool.and_eq_true, Bool.or_eq_true, decide_eq_true_eq,
      beq_iff_eq]
    omega

/-- C4: `get_all_reminders` returns the empty dict exactly when no row
matches either channel; otherwise it returns the column header list
together with the union of the default-channel and custom-channel
matches de-duplicated by full row-tuple equality, so each matching row
occurs exactly once even when it matches both channels. -/
theorem all_reminders_correct :
    (∀ (tbl : List BRec) (D : Date),
      get_all_reminders tbl D = none ↔
        get_default_reminders tbl D ++ get_custom_reminders tbl D = []) ∧
    (∀ (tbl : List BRec) (D : Date) (hd : List String) (items : List BRec),
      get_all_reminders tbl D = some (hd, items) →
        hd = dbColumnNames ∧
        (∀ r : BRec, r ∈ items ↔
          r ∈ get_default_reminders tbl D ++ get_custom_reminders tbl D) ∧
        (∀ r ∈ items, items.count r = 1)) := by
  constructor
  · intro tbl D
    simp only [get_all_reminders]
    split_ifs with h
    · exact iff_of_true rfl h
    · exact iff_of_false (by simp) h
  · intro tbl D hd items hsome
    simp only [get_all_reminders] at hsome
    by_cases h : get_default_reminders tbl D ++ get_custom_reminders tbl D = []
    · rw [if_pos h] at hsome
      exact absurd hsome (by simp)
    · rw [if_neg h] at hsome
      have hpair := Option.some.inj hsome
      have h1 : dbColumnNames = hd := congrArg Prod.fst hpair
      have h2 : (get_default_reminders tbl D ++ get_custom_reminders tbl D).dedup
          = items := congrArg Prod.snd hpair
      refine ⟨h1.symm, ?_, ?_⟩
      · intro r
        rw [← h2]
        exact List.mem_dedup
      · intro r hr
        rw [← h2] at hr ⊢
        exact List.count_eq_one_of_mem (List.nodup_dedup _) hr

/-- Instantiation of `all_reminders_correct` on a record matching both
channels at once (offset 0 both ways): the combined result carries the
header and lists the row exactly once. -/
theorem all_reminders_correct_witness :
    ∃ items : List BRec,
      get_all_reminders [mkRec 1 ⟨2000, 5, 5⟩ 0] ⟨2025, 5, 5⟩ =
          some (dbColumnNames, items) ∧
      items.count (mkRec 1 ⟨2000, 5, 5⟩ 0) = 1 := by
  have hsome : get_all_reminders [mkRec 1 ⟨2000, 5, 5⟩ 0] ⟨2025, 5, 5⟩ =
      some (dbColumnNames, [mkRec 1 ⟨2000, 5, 5⟩ 0]) := by decide
  have h := (all_reminders_correct.2 [mkRec 1 ⟨2000, 5, 5⟩ 0] ⟨2025, 5, 5⟩
    dbColumnNames [mkRec 1 ⟨2000, 5, 5⟩ 0] hsome)
  exact ⟨[mkRec 1 ⟨2000, 5, 5⟩ 0], hsome, h.2.2 _ (by decide)⟩

/-- Instantiation of `dates_interval_correct`: the 12-25 row is valid
and lies in the wrapped window 12-20 .. 01-10. -/
theorem dates_interval_correct_witness :
    mkRec 1 ⟨1999, 12, 25⟩ 0 ∈
      get_data_in_dates_interval [mkRec 1 ⟨1999, 12, 25⟩ 0]
        ⟨2024, 12, 20⟩ ⟨2025, 1, 10⟩ := by
  exact (dates_interval_correct.1 [mkRec 1 ⟨1999, 12, 25⟩ 0]
    ⟨2024, 12, 20⟩ ⟨2025, 1, 10⟩ (mkRec 1 ⟨1999, 12, 25⟩ 0)
    (by decide)).mpr ⟨by decide, by decide⟩

theorem char_eq_of_toNat_eq (a b : Char) (h : a.toNat = b.toNat) : a = b :=
  Char.eq_of_val_eq (UInt32.eq_of_val_eq (Fin.eq_of_val_eq h))

theorem digitChar_isDigit (k : Nat) (h : k < 10) :
    isDigitChar (Nat.digitChar k) = true := by
  interval_cases k <;> rfl

theorem digitChar_inv (c : Char) (h : isDigitChar c = true) :
    Nat.digitChar (c.toNat - 48) = c := by
  have hb : 48 ≤ c.toNat ∧ c.toNat ≤ 57 := by
    simpa [isDigitChar, Bool.and_eq_true, decide_eq_true_eq] using h
  apply char_eq_of_toNat_eq
  rw [digitChar_toNat (c.toNat - 48) (by omega)]
  omega

theorem splitOnChar_ne_nil (sep : Char) (l : List Char) :
    splitOnChar sep l ≠ [] := by
  cases l with
  | nil => simp [splitOnChar]
  | cons c rest =>
    simp only [splitOnChar]
    rcases splitOnChar sep rest with _ | ⟨h, t⟩
    · simp
    · by_cases hc : c = sep <;> simp [hc]

theorem splitOnChar_no_sep (sep : Char) (l : List Char) :
    ∀ part ∈ splitOnChar sep l, sep ∉ part := by
  induction l with
  | nil =>
    intro part hp
    simp [splitOnChar] at hp
    simp [hp]
  | cons c rest ih =>
    intro part hp
    rcases hs : splitOnChar sep rest with _ | ⟨h, t⟩
    · exact absurd hs (splitOnChar_ne_nil sep rest)
    · simp only [splitOnChar, hs] at hp
      by_cases hc : c = sep
      · rw [if_pos hc] at hp
        rcases List.mem_cons.1 hp with hp1 | hp1
        · simp [hp1]
        · exact ih part (hs ▸ hp1)
      · rw [if_neg hc] at hp
        rcases List.mem_cons.1 hp with hp1 | hp1
        · subst hp1
          intro hmem
          rcases List.mem_cons.1 hmem with h1 | h1
          · exact hc h1.symm
          · exact ih h (hs ▸ List.mem_cons_self h t) h1
        · exact ih part (hs ▸ List.mem_cons_of_mem h hp1)

theorem joinSep_splitOnChar (sep : Char) (l : List Char) :
    joinSep sep (splitOnChar sep l) = l := by
  induction l with
  | nil => rfl
  | cons c rest ih =>
    rcases hs : splitOnChar sep rest with _ | ⟨h, t⟩
    · exact absurd hs (splitOnChar_ne_nil sep rest)
    · simp only [splitOnChar, hs]
      rw [hs] at ih
      by_cases hc : c = sep
      · rw [if_pos hc, hc]
        cases t with
        | nil => simpa [joinSep] using ih
        | cons q t' => simpa [joinSep] using ih
      · rw [if_neg hc]
        cases t with
        | nil => simpa [joinSep] using ih
        | cons q t' => simpa [joinSep] using ih

theorem splitOnChar_append (sep : Char) (a rest : List Char) (ha : sep ∉ a) :
    splitOnChar sep (a ++ sep :: rest) = a :: splitOnChar sep rest := by
  induction a with
  | nil =>
    simp only [List.nil_append, splitOnChar]
    rcases hs : splitOnChar sep rest with _ | ⟨h, t⟩
    · exact absurd hs (splitOnChar_ne_nil sep rest)
    · simp
  | cons x a' ih =>
    have hx : x ≠ sep := fun hx => ha (hx ▸ List.mem_cons_self x a')
    have ha' : sep ∉ a' := fun h => ha (List.mem_cons_of_mem x h)
    rw [List.cons_append]
    rcases hs : splitOnChar sep (a' ++ sep :: rest) with _ | ⟨h, t⟩
    · exact absurd hs (splitOnChar_ne_nil sep _)
    · simp only [splitOnChar, hs]
      rw [if_neg hx]
      have hih := ih ha'
      rw [hs] at hih
      injection hih with h1 h2
      rw [h1, h2]

theorem splitOnChar_eq_self (sep : Char) (a : List Char) (ha : sep ∉ a) :
    splitOnChar sep a = [a] := by
  induction a with
  | nil => rfl
  | cons x a' ih =>
    have hx : x ≠ sep := fun hx => ha (hx ▸ List.mem_cons_self x a')
    have ha' : sep ∉ a' := fun h => ha (List.mem_cons_of_mem x h)
    rcases hs : splitOnChar sep a' with _ | ⟨h, t⟩
    · exact absurd hs (splitOnChar_ne_nil sep _)
    · simp only [splitOnChar, hs]
      rw [if_neg hx]
      have hih := ih ha'
      rw [hs] at hih
      injection hih with h1 h2
      rw [h1, h2]

theorem pad2_all_digits (v : Nat) (h : v < 100) :
    (pad2 v).all isDigitChar = true := by
  simp only [pad2, List.all_cons, List.all_nil, Bool.and_eq_true, and_true]
  exact ⟨digitChar_isDigit _ (by omega),
    digitChar_isDigit _ (Nat.mod_lt _ (by norm_num))⟩

theorem charsToNat_pad2 (v : Nat) (h : v < 100) : charsToNat (pad2 v) = v := by
  have h1 : v / 10 < 10 := by omega
  have h0 : v % 10 < 10 := Nat.mod_lt _ (by norm_num)
  simp only [charsToNat, pad2, List.foldl,
    digitChar_toNat _ h1, digitChar_toNat _ h0]
  omega

theorem charsToNat_pad4 (v : Nat) (h : v < 10000) : charsToNat (pad4 v) = v := by
  have h3 : v / 1000 % 10 < 10 := Nat.mod_lt _ (by norm_num)
  have h2 : v / 100 % 10 < 10 := Nat.mod_lt _ (by norm_num)
  have h1 : v / 10 % 10 < 10 := Nat.mod_lt _ (by norm_num)
  have h0 : v % 10 < 10 := Nat.mod_lt _ (by norm_num)
  simp only [charsToNat, pad4, List.foldl,
    digitChar_toNat _ h3, digitChar_toNat _ h2,
    digitChar_toNat _ h1, digitChar_toNat _ h0]
  omega

theorem pad4_all_digits (v : Nat) : (pad4 v).all isDigitChar = true := by
  simp only [pad4, List.all_cons, List.all_nil, Bool.and_eq_true, and_true]
  refine ⟨?_, ?_, ?_, ?_⟩ <;>
    exact digitChar_isDigit _ (Nat.mod_lt _ (by norm_num))

theorem digit_bounds (c : Char) (h : isDigitChar c = true) :
    48 ≤ c.toNat ∧ c.toNat ≤ 57 := by
  simpa [isDigitChar, Bool.and_eq_true, decide_eq_true_eq] using h

theorem charsToNat_singleton (c : Char) : charsToNat [c] = c.toNat - 48 := by
  simp [charsToNat]

theorem charsToNat_pair (c1 c0 : Char) :
    charsToNat [c1, c0] = (c1.toNat - 48) * 10 + (c0.toNat - 48) := by
  simp [charsToNat]

theorem charsToNat_quad (c3 c2 c1 c0 : Char) :
    charsToNat [c3, c2, c1, c0] =
      ((c3.toNat - 48) * 10 + (c2.toNat - 48)) * 100 +
        ((c1.toNat - 48) * 10 + (c0.toNat - 48)) := by
  simp [charsToNat]
  ring

theorem repr2_of_field (l : List Char) (hd : l.all isDigitChar = true)
    (hlen : l.length = 1 ∨ l.length = 2) : repr2 l (charsToNat l) := by
  rcases l with _ | ⟨c1, _ | ⟨c0, _ | ⟨c2, t⟩⟩⟩
  · simp at hlen
  · have hc1 := digit_bounds c1 (by simpa [List.all_cons] using hd)
    right
    refine ⟨by rw [charsToNat_singleton]; omega, ?_⟩
    rw [charsToNat_singleton, digitChar_inv c1 (by simpa [List.all_cons] using hd)]
  · simp only [List.all_cons, List.all_nil, Bool.and_eq_true, and_true] at hd
    have hc1 := digit_bounds c1 hd.1
    have hc0 := digit_bounds c0 hd.2
    left
    rw [charsToNat_pair, pad2]
    have e1 : ((c1.toNat - 48) * 10 + (c0.toNat - 48)) / 10 = c1.toNat - 48 := by
      omega
    have e0 : ((c1.toNat - 48) * 10 + (c0.toNat - 48)) % 10 = c0.toNat - 48 := by
      omega
    rw [e1, e0, digitChar_inv c1 hd.1, digitChar_inv c0 hd.2]
  · simp at hlen

theorem field_of_repr2 (l : List Char) (v : Nat) (h : repr2 l v) (hv : v ≤ 99) :
    l.all isDigitChar = true ∧ (l.length = 1 ∨ l.length = 2) ∧
      charsToNat l = v := by
  rcases h with h | ⟨hv9, h⟩
  · subst h
    exact ⟨pad2_all_digits v (by omega), Or.inr rfl, charsToNat_pad2 v (by omega)⟩
  · subst h
    refine ⟨?_, Or.inl rfl, ?_⟩
    · simp [List.all_cons, digitChar_isDigit v (by omega)]
    · rw [charsToNat_singleton, digitChar_toNat v (by omega)]
      omega

theorem dayRepr_iff (l : List Char) (v : Nat) :
    (isDayField l = true ∧ charsToNat l = v) ↔ dayRepr l v := by
  constructor
  · rintro ⟨hf, rfl⟩
    simp only [isDayField, Bool.and_eq_true, Bool.or_eq_true, beq_iff_eq,
      decide_eq_true_eq] at hf
    obtain ⟨⟨hd, hlen⟩, hlo, hhi⟩ := hf
    exact ⟨hlo, hhi, repr2_of_field l hd hlen⟩
  · rintro ⟨hlo, hhi, hr⟩
    obtain ⟨hd, hlen, hval⟩ := field_of_repr2 l v hr (by omega)
    refine ⟨?_, hval⟩
    simp only [isDayField, Bool.and_eq_true, Bool.or_eq_true, beq_iff_eq,
      decide_eq_true_eq]
    exact ⟨⟨hd, hlen⟩, by omega, by omega⟩

theorem monthRepr_iff (l : List Char) (v : Nat) :
    (isMonthField l = true ∧ charsToNat l = v) ↔ monthRepr l v := by
  constructor
  · rintro ⟨hf, rfl⟩
    simp only [isMonthField, Bool.and_eq_true, Bool.or_eq_true, beq_iff_eq,
      decide_eq_true_eq] at hf
    obtain ⟨⟨hd, hlen⟩, hlo, hhi⟩ := hf
    exact ⟨hlo, hhi, repr2_of_field l hd hlen⟩
  · rintro ⟨hlo, hhi, hr⟩
    obtain ⟨hd, hlen, hval⟩ := field_of_repr2 l v hr (by omega)
    refine ⟨?_, hval⟩
    simp only [isMonthField, Bool.and_eq_true, Bool.or_eq_true, beq_iff_eq,
      decide_eq_true_eq]
    exact ⟨⟨hd, hlen⟩, by omega, by omega⟩

theorem yearRepr_iff (l : List Char) (v : Nat) :
    (isYearField l = true ∧ charsToNat l = v) ↔ yearRepr l v := by
  constructor
  · rintro ⟨hf, rfl⟩
    simp only [isYearField, Bool.and_eq_true, beq_iff_eq] at hf
    obtain ⟨hd, hlen⟩ := hf
    rcases l with _ | ⟨c3, _ | ⟨c2, _ | ⟨c1, _ | ⟨c0, _ | ⟨c4, t⟩⟩⟩⟩⟩ <;>
      simp at hlen
    simp only [List.all_cons, List.all_nil, Bool.and_eq_true, and_true] at hd
    obtain ⟨h3, h2, h1, h0⟩ := hd
    have b3 := digit_bounds c3 h3
    have b2 := digit_bounds c2 h2
    have b1 := digit_bounds c1 h1
    have b0 := digit_bounds c0 h0
    rw [charsToNat_quad]
    set k3 := c3.toNat - 48
    set k2 := c2.toNat - 48
    set k1 := c1.toNat - 48
    set k0 := c0.toNat - 48
    have hk3 : k3 ≤ 9 := by omega
    have hk2 : k2 ≤ 9 := by omega
    have hk1 : k1 ≤ 9 := by omega
    have hk0 : k0 ≤ 9 := by omega
    constructor
    · omega
    · rw [pad4]
      have e3 : ((k3 * 10 + k2) * 100 + (k1 * 10 + k0)) / 1000 % 10 = k3 := by
        omega
      have e2 : ((k3 * 10 + k2) * 100 + (k1 * 10 + k0)) / 100 % 10 = k2 := by
        omega
      have e1 : ((k3 * 10 + k2) * 100 + (k1 * 10 + k0)) / 10 % 10 = k1 := by
        omega
      have e0 : ((k3 * 10 + k2) * 100 + (k1 * 10 + k0)) % 10 = k0 := by
        omega
      rw [e3, e2, e1, e0, digitChar_inv c3 h3, digitChar_inv c2 h2,
        digitChar_inv c1 h1, digitChar_inv c0 h0]
  · rintro ⟨hv, rfl⟩
    refine ⟨?_, charsToNat_pad4 v (by omega)⟩
    simp only [isYearField, Bool.and_eq_true, beq_iff_eq]
    exact ⟨pad4_all_digits v, rfl⟩

theorem sep_not_mem_of_digits (l : List Char) (hl : l.all isDigitChar = true)
    (sep : Char) (hsep : isDigitChar sep = false) : sep ∉ l := by
  intro h
  have := List.all_eq_true.1 hl sep h
  rw [hsep] at this
  cases this

theorem dayField_digits (l : List Char) (h : isDayField l = true) :
    l.all isDigitChar = true := by
  simp only [isDayField, Bool.and_eq_true] at h
  exact h.1.1

theorem monthField_digits (l : List Char) (h : isMonthField l = true) :
    l.all isDigitChar = true := by
  simp only [isMonthField, Bool.and_eq_true] at h
  exact h.1.1

theorem yearField_digits (l : List Char) (h : isYearField l = true) :
    l.all isDigitChar = true := by
  simp only [isYearField, Bool.and_eq_true] at h
  exact h.1

/-- The `strptime` model agrees exactly with the spec-side reading of
"the string is the date written in this format", for any non-digit
separator (all separators of `DATE_PATTERNS` are non-digits). -/
theorem strptime_eq_some_iff (sep : Char) (ord : FieldOrder) (s : List Char)
    (d : Date) (hsep : isDigitChar sep = false) :
    strptime sep ord s = some d ↔ MatchesPattern sep ord s d := by
  constructor
  · intro h
    unfold strptime at h
    rcases hsplit : splitOnChar sep s with _ | ⟨f1, _ | ⟨f2, _ | ⟨f3, _ | ⟨f4, t⟩⟩⟩⟩ <;>
      rw [hsplit] at h <;>
      [skip; skip; skip; skip; skip]
    case nil => simp at h
    case cons.nil => simp at h
    case cons.cons.nil => simp at h
    case cons.cons.cons.cons => simp at h
    case cons.cons.cons.nil =>
      have hs_eq : s = f1 ++ sep :: (f2 ++ sep :: f3) := by
        conv_lhs => rw [← joinSep_splitOnChar sep s, hsplit]
        rfl
      cases ord with
      | dmy =>
        dsimp only at h
        split_ifs at h with hf hv
        · injection h with hd
          subst hd
          simp only [Bool.and_eq_true] at hf
          obtain ⟨⟨hf1, hf2⟩, hf3⟩ := hf
          exact ⟨hv, f1, f2, f3, hs_eq,
            (dayRepr_iff f1 _).1 ⟨hf1, rfl⟩,
            (monthRepr_iff f2 _).1 ⟨hf2, rfl⟩,
            (yearRepr_iff f3 _).1 ⟨hf3, rfl⟩⟩
      | ymd =>
        dsimp only at h
        split_ifs at h with hf hv
        · injection h with hd
          subst hd
          simp only [Bool.and_eq_true] at hf
          obtain ⟨⟨hf3, hf2⟩, hf1⟩ := hf
          exact ⟨hv, f1, f2, f3, hs_eq,
            (yearRepr_iff f1 _).1 ⟨hf1, rfl⟩,
            (monthRepr_iff f2 _).1 ⟨hf2, rfl⟩,
            (dayRepr_iff f3 _).1 ⟨hf3, rfl⟩⟩
  · intro hm
    obtain ⟨hvalid, f1, f2, f3, hshape, hfields⟩ := hm
    cases ord with
    | dmy =>
      obtain ⟨hd1, hm2, hy3⟩ := hfields
      have F1 := (dayRepr_iff f1 d.day).2 hd1
      have F2 := (monthRepr_iff f2 d.month).2 hm2
      have F3 := (yearRepr_iff f3 d.year).2 hy3
      have hn1 : sep ∉ f1 :=
        sep_not_mem_of_digits f1 (dayField_digits f1 F1.1) sep hsep
      have hn2 : sep ∉ f2 :=
        sep_not_mem_of_digits f2 (monthField_digits f2 F2.1) sep hsep
      have hn3 : sep ∉ f3 :=
        sep_not_mem_of_digits f3 (yearField_digits f3 F3.1) sep hsep
      have hsplit : splitOnChar sep s = [f1, f2, f3] := by
        rw [hshape, splitOnChar_append sep f1 _ hn1,
          splitOnChar_append sep f2 _ hn2, splitOnChar_eq_self sep f3 hn3]
      unfold strptime
      rw [hsplit]
      dsimp only
      rw [F1.2, F2.2, F3.2]
      rw [if_pos (by rw [F1.1, F2.1, F3.1]; rfl)]
      rw [if_pos (by exact hvalid)]
    | ymd =>
      obtain ⟨hy1, hm2, hd3⟩ := hfields
      have F1 := (yearRepr_iff f1 d.year).2 hy1
      have F2 := (monthRepr_iff f2 d.month).2 hm2
      have F3 := (dayRepr_iff f3 d.day).2 hd3
      have hn1 : sep ∉ f1 :=
        sep_not_mem_of_digits f1 (yearField_digits f1 F1.1) sep hsep
      have hn2 : sep ∉ f2 :=
        sep_not_mem_of_digits f2 (monthField_digits f2 F2.1) sep hsep
      have hn3 : sep ∉ f3 :=
        sep_not_mem_of_digits f3 (dayField_digits f3 F3.1) sep hsep
      have hsplit : splitOnChar sep s = [f1, f2, f3] := by
        rw [hshape, splitOnChar_append sep f1 _ hn1,
          splitOnChar_append sep f2 _ hn2, splitOnChar_eq_self sep f3 hn3]
      unfold strptime
      rw [hsplit]
      dsimp only
      rw [F1.2, F2.2, F3.2]
      rw [if_pos (by rw [F3.1, F2.1, F1.1]; rfl)]
      rw [if_pos (by exact hvalid)]

theorem dayField_len (l : List Char) (h : isDayField l = true) :
    l.length = 1 ∨ l.length = 2 := by
  simp only [isDayField, Bool.and_eq_true, Bool.or_eq_true, beq_iff_eq] at h
  exact h.1.2

theorem yearField_len (l : List Char) (h : isYearField l = true) :
    l.length = 4 := by
  simp only [isYearField, Bool.and_eq_true, beq_iff_eq] at h
  exact h.2

/-- No string parses under two distinct field orders with the same
separator: the first field would have to be both 1-2 digits and exactly
4 digits long. -/
theorem strptime_ord_unique (sep : Char) (s : List Char) (d1 d2 : Date)
    (h1 : strptime sep .dmy s = some d1) (h2 : strptime sep .ymd s = some d2) :
    False := by
  unfold strptime at h1 h2
  rcases hsplit : splitOnChar sep s with _ | ⟨f1, _ | ⟨f2, _ | ⟨f3, _ | ⟨f4, t⟩⟩⟩⟩ <;>
    rw [hsplit] at h1 h2
  case nil => simp at h1
  case cons.nil => simp at h1
  case cons.cons.nil => simp at h1
  case cons.cons.cons.cons => simp at h1
  case cons.cons.cons.nil =>
    dsimp only at h1 h2
    split_ifs at h1 with hf1 hv1
    split_ifs at h2 with hf2 hv2
    simp only [Bool.and_eq_true] at hf1 hf2
    have hlen1 := dayField_len f1 hf1.1.1
    have hlen2 := yearField_len f1 hf2.2
    omega

/-- Every character of a string matching a pattern is a digit or the
separator. -/
theorem matches_chars (sep : Char) (ord : FieldOrder) (s : List Char)
    (d : Date) (h : MatchesPattern sep ord s d) :
    ∀ c ∈ s, isDigitChar c = true ∨ c = sep := by
  obtain ⟨hv, f1, f2, f3, rfl, hfields⟩ := h
  have hdigits : f1.all isDigitChar = true ∧ f2.all isDigitChar = true ∧
      f3.all isDigitChar = true := by
    cases ord with
    | dmy =>
      obtain ⟨⟨hdlo, hdhi, hdr⟩, ⟨hmlo, hmhi, hmr⟩, hy3⟩ := hfields
      refine ⟨(field_of_repr2 f1 d.day hdr (by omega)).1,
        (field_of_repr2 f2 d.month hmr (by omega)).1, ?_⟩
      rw [hy3.2]
      exact pad4_all_digits d.year
    | ymd =>
      obtain ⟨hy1, ⟨hmlo, hmhi, hmr⟩, ⟨hdlo, hdhi, hdr⟩⟩ := hfields
      refine ⟨?_, (field_of_repr2 f2 d.month hmr (by omega)).1,
        (field_of_repr2 f3 d.day hdr (by omega)).1⟩
      rw [hy1.2]
      exact pad4_all_digits d.year
  intro c hc
  rcases List.mem_append.1 hc with hc | hc
  · exact Or.inl (List.all_eq_true.1 hdigits.1 c hc)
  · rcases List.mem_cons.1 hc with hc | hc
    · exact Or.inr hc
    · rcases List.mem_append.1 hc with hc | hc
      · exact Or.inl (List.all_eq_true.1 hdigits.2.1 c hc)
      · rcases List.mem_cons.1 hc with hc | hc
        · exact Or.inr hc
        · exact Or.inl (List.all_eq_true.1 hdigits.2.2 c hc)

/-- The separator of a matching pattern occurs in the string. -/
theorem matches_sep_mem (sep : Char) (ord : FieldOrder) (s : List Char)
    (d : Date) (h : MatchesPattern sep ord s d) : sep ∈ s := by
  obtain ⟨hv, f1, f2, f3, rfl, hfields⟩ := h
  exact List.mem_append.2 (Or.inr (List.mem_cons_self sep _))

theorem firstParse_eq_none_iff (L : List (Char × FieldOrder)) (s : List Char) :
    firstParse L s = none ↔ ∀ p ∈ L, strptime p.1 p.2 s = none := by
  induction L with
  | nil => simp [firstParse]
  | cons q L ih =>
    simp only [firstParse]
    rcases hq : strptime q.1 q.2 s with _ | d
    · simp [hq, List.forall_mem_cons, ih]
    · simp [hq, List.forall_mem_cons]

theorem firstParse_mem_of_some (L : List (Char × FieldOrder)) (s : List Char)
    (d : Date) (h : firstParse L s = some d) :
    ∃ p ∈ L, strptime p.1 p.2 s = some d := by
  induction L with
  | nil => simp [firstParse] at h
  | cons q L ih =>
    simp only [firstParse] at h
    rcases hq : strptime q.1 q.2 s with _ | d'
    · rw [hq] at h
      dsimp only at h
      obtain ⟨p, hp, hps⟩ := ih h
      exact ⟨p, List.mem_cons_of_mem q hp, hps⟩
    · rw [hq] at h
      dsimp only at h
      injection h with hd
      subst hd
      exact ⟨q, List.mem_cons_self q L, hq⟩

theorem firstParse_of_unique (L : List (Char × FieldOrder)) (s : List Char)
    (p : Char × FieldOrder) (d : Date) (hp : p ∈ L)
    (hnone : ∀ q ∈ L, q ≠ p → strptime q.1 q.2 s = none)
    (hsome : strptime p.1 p.2 s = some d) : firstParse L s = some d := by
  induction L with
  | nil => cases hp
  | cons q L ih =>
    simp only [firstParse]
    by_cases hqp : q = p
    · subst hqp
      rw [hsome]
    · have hq := hnone q (List.mem_cons_self q L) hqp
      rw [hq]
      dsimp only
      have hp' : p ∈ L := by
        rcases List.mem_cons.1 hp with h | h
        · exact absurd h.symm hqp
        · exact h
      exact ih hp' (fun r hr hrp => hnone r (List.mem_cons_of_mem q hr) hrp)

theorem dropWhile_dropWhile (p : Char → Bool) (l : List Char) :
    (l.dropWhile p).dropWhile p = l.dropWhile p := by
  induction l with
  | nil => rfl
  | cons a l ih => by_cases h : p a <;> simp [List.dropWhile_cons, h, ih]

theorem dropWhile_cons_eq_self (p : Char → Bool) (a : Char) (s : List Char)
    (h : List.dropWhile p (a :: s) = a :: s) : p a = false := by
  cases hx : p a
  · rfl
  · rw [List.dropWhile_cons, hx, if_pos rfl] at h
    have hle : (List.dropWhile p s).length ≤ s.length :=
      (List.dropWhile_sublist (l := s) (p := p)).length_le
    rw [h] at hle
    simp at hle

theorem pyStrip_idem (l : List Char) : pyStrip (pyStrip l) = pyStrip l := by
  unfold pyStrip
  have h1 : List.dropWhile isPySpace
      ((l.dropWhile isPySpace).rdropWhile isPySpace) =
      (l.dropWhile isPySpace).rdropWhile isPySpace := by
    rcases hq : (l.dropWhile isPySpace).rdropWhile isPySpace with _ | ⟨a, t⟩
    · simp
    · obtain ⟨w, hw⟩ :=
        (List.rdropWhile_prefix isPySpace (l.dropWhile isPySpace))
      rw [hq] at hw
      have hm : List.dropWhile isPySpace (l.dropWhile isPySpace) =
          l.dropWhile isPySpace := dropWhile_dropWhile _ _
      rw [← hw, List.cons_append] at hm
      have hpa : isPySpace a = false := dropWhile_cons_eq_self _ _ _ hm
      simp [List.dropWhile_cons, hpa]
  rw [h1, List.rdropWhile_idempotent]

theorem mem_pyStrip (l : List Char) (c : Char) (h : c ∈ pyStrip l) : c ∈ l := by
  unfold pyStrip at h
  have h2 := (List.rdropWhile_prefix isPySpace
    (l.dropWhile isPySpace)).sublist.mem h
  exact (List.dropWhile_sublist (l := l) (p := isPySpace)).mem h2

/-- C6: every character of `clean_text(x)` belongs to the whitelist
(Latin or Cyrillic letters, digits, whitespace, hyphen, en-dash), and
`clean_text` is idempotent. -/
theorem clean_text_correct :
    (∀ (s : List Char) (c : Char), c ∈ clean_text s → allowedChar c = true) ∧
    (∀ s : List Char, clean_text (clean_text s) = clean_text s) := by
  have hmem : ∀ (s : List Char) (c : Char), c ∈ clean_text s →
      allowedChar c = true := by
    intro s c h
    exact (List.mem_filter.1 (mem_pyStrip _ _ h)).2
  refine ⟨hmem, ?_⟩
  intro s
  have h1 : List.filter allowedChar (clean_text s) = clean_text s :=
    List.filter_eq_self.2 (fun c hc => hmem s c hc)
  show pyStrip (List.filter allowedChar (clean_text s)) = clean_text s
  rw [h1, clean_text]
  exact pyStrip_idem _

/-- Closed instance of `clean_text_correct`: cleaning
`" i!d{e}m -- "` keeps only whitelisted characters and a second
application changes nothing. -/
theorem clean_text_correct_witness :
    allowedChar 'd' = true ∧
    clean_text (clean_text [' ', 'i', '!', 'd', '-', ' ']) =
      clean_text [' ', 'i', '!', 'd', '-', ' '] := by
  constructor
  · exact clean_text_correct.1 [' ', 'i', '!', 'd', '-', ' '] 'd' (by decide)
  · exact clean_text_correct.2 [' ', 'i', '!', 'd', '-', ' ']

/-- C7: `del_record_by_id` raises `WrongInput` and leaves the table
unchanged when the identifier is not coercible to an integer (such as
the string "abc"), and succeeds as a no-op for an integer identifier
matching no stored row. -/
theorem del_record_by_id_correct :
    (∀ (tbl : List BRec) (v : PyVal), pyInt v = none →
      del_record_by_id tbl v = (DbOutcome.wrongInput, tbl)) ∧
    (∀ (tbl : List BRec) (v : PyVal) (n : Int), pyInt v = some n →
      (∀ r ∈ tbl, (r.id : Int) ≠ n) →
      del_record_by_id tbl v = (DbOutcome.ok, tbl)) ∧
    pyInt (PyVal.str ['a', 'b', 'c']) = none := by
  refine ⟨?_, ?_, by decide⟩
  · intro tbl v h
    simp [del_record_by_id, h]
  · intro tbl v n h hn
    simp only [del_record_by_id, h]
    rw [List.filter_eq_self.2 (fun r hr => decide_eq_true (hn r hr))]

/-- Closed instance of `del_record_by_id_correct`: deleting by "abc"
raises `WrongInput` without touching the row, deleting the absent id 99
is a no-op success. -/
theorem del_record_by_id_correct_witness :
    del_record_by_id [mkRec 1 ⟨2000, 1, 1⟩ 0] (PyVal.str ['a', 'b', 'c']) =
      (DbOutcome.wrongInput, [mkRec 1 ⟨2000, 1, 1⟩ 0]) ∧
    del_record_by_id [mkRec 1 ⟨2000, 1, 1⟩ 0] (PyVal.int 99) =
      (DbOutcome.ok, [mkRec 1 ⟨2000, 1, 1⟩ 0]) := by
  constructor
  · exact del_record_by_id_correct.1 [mkRec 1 ⟨2000, 1, 1⟩ 0]
      (PyVal.str ['a', 'b', 'c']) (by decide)
  · exact del_record_by_id_correct.2.1 [mkRec 1 ⟨2000, 1, 1⟩ 0]
      (PyVal.int 99) 99 rfl (by decide)

/-- C5: for every date string matching one of the fixed ordered
accepted formats (day-month-year and year-month-day with `.`, `-`, `/`
separators), normalization returns the date reformatted to canonical
`YYYY-MM-DD`; for every string matching none of the formats it returns
the unparsed marker (`None`) and never raises: the `strptime` model
coincides with the spec-side format relation, a string matching some
listed format normalizes to the canonical rendering of its date, and an
unmatched string yields `none`. -/
theorem parse_date_correct :
    (∀ (sep : Char) (ord : FieldOrder) (s : List Char) (d : Date),
      isDigitChar sep = false →
      (strptime sep ord s = some d ↔ MatchesPattern sep ord s d)) ∧
    (∀ s : List Char, normalize_date s = none ↔
      ∀ p ∈ DATE_PATTERNS, ∀ d : Date, ¬ MatchesPattern p.1 p.2 s d) ∧
    (∀ (s : List Char) (p : Char × FieldOrder) (d : Date),
      p ∈ DATE_PATTERNS → MatchesPattern p.1 p.2 s d →
      normalize_date s = some (isoChars d)) ∧
    (∀ (s : List Char) (d : Date), parse_date s = some d →
      ∃ p ∈ DATE_PATTERNS, MatchesPattern p.1 p.2 s d) := by
  have hsepsAll : ∀ p ∈ DATE_PATTERNS, isDigitChar p.1 = false := by decide
  refine ⟨fun sep ord s d h => strptime_eq_some_iff sep ord s d h, ?_, ?_, ?_⟩
  · intro s
    unfold normalize_date
    constructor
    · intro h p hp d hm
      have hpd : parse_date s = none := by
        rcases hx : parse_date s with _ | d'
        · rfl
        · rw [hx] at h
          simp at h
      have hnone := (firstParse_eq_none_iff DATE_PATTERNS s).1 hpd p hp
      rw [(strptime_eq_some_iff p.1 p.2 s d (hsepsAll p hp)).2 hm] at hnone
      cases hnone
    · intro h
      have hpd : parse_date s = none := by
        rw [parse_date, firstParse_eq_none_iff]
        intro p hp
        rcases hx : strptime p.1 p.2 s with _ | d'
        · rfl
        · exact absurd
            ((strptime_eq_some_iff p.1 p.2 s d' (hsepsAll p hp)).1 hx)
            (h p hp d')
      rw [hpd]
      rfl
  · intro s p d hp hm
    have hstrp := (strptime_eq_some_iff p.1 p.2 s d (hsepsAll p hp)).2 hm
    have hnone : ∀ q ∈ DATE_PATTERNS, q ≠ p → strptime q.1 q.2 s = none := by
      intro q hq hqp
      rcases hx : strptime q.1 q.2 s with _ | d'
      · rfl
      · exfalso
        have hmq := (strptime_eq_some_iff q.1 q.2 s d' (hsepsAll q hq)).1 hx
        have hsepmem := matches_sep_mem q.1 q.2 s d' hmq
        have hchar := matches_chars p.1 p.2 s d hm q.1 hsepmem
        have hsepeq : q.1 = p.1 := by
          rcases hchar with hc | hc
          · rw [hsepsAll q hq] at hc
            cases hc
          · exact hc
        rcases q with ⟨qs, qord⟩
        rcases p with ⟨ps, pord⟩
        simp only at hsepeq hx hstrp hqp
        subst hsepeq
        cases qord <;> cases pord
        · exact hqp rfl
        · exact strptime_ord_unique qs s d' d hx hstrp
        · exact strptime_ord_unique qs s d d' hstrp hx
        · exact hqp rfl
    have hpd : parse_date s = some d :=
      firstParse_of_unique DATE_PATTERNS s p d hp hnone hstrp
    rw [normalize_date, hpd]
    rfl
  · intro s d h
    obtain ⟨p, hp, hps⟩ := firstParse_mem_of_some DATE_PATTERNS s d h
    exact ⟨p, hp, (strptime_eq_some_iff p.1 p.2 s d (hsepsAll p hp)).1 hps⟩

/-- Closed instance of `parse_date_correct`: "22.03.1990" matches the
first pattern (`%d.%m.%Y`) and normalizes to "1990-03-22". -/
theorem parse_date_correct_witness :
    MatchesPattern '.' FieldOrder.dmy
      ['2', '2', '.', '0', '3', '.', '1', '9', '9', '0'] ⟨1990, 3, 22⟩ ∧
    normalize_date ['2', '2', '.', '0', '3', '.', '1', '9', '9', '0'] =
      some ['1', '9', '9', '0', '-', '0', '3', '-', '2', '2'] := by
  have hm : MatchesPattern '.' FieldOrder.dmy
      ['2', '2', '.', '0', '3', '.', '1', '9', '9', '0'] ⟨1990, 3, 22⟩ :=
    (parse_date_correct.1 '.' FieldOrder.dmy
      ['2', '2', '.', '0', '3', '.', '1', '9', '9', '0'] ⟨1990, 3, 22⟩
      (by decide)).mp (by rfl)
  refine ⟨hm, ?_⟩
  have hn := parse_date_correct.2.2.1
    ['2', '2', '.', '0', '3', '.', '1', '9', '9', '0']
    ('.', FieldOrder.dmy) ⟨1990, 3, 22⟩ (by decide) hm
  rw [hn]
  rfl

/-- C8: `read_csv` raises `ColumnMismatch` exactly when the readable
first row's column count differs from the expected count (the 7 schema
columns minus the auto-increment primary key), and it does so before
the full file is parsed (the result does not depend on the remaining
rows); file-not-found and parser-level failures — including a full-parse
failure after a matching first row — are wrapped into `ReadCSVError`;
the two error kinds are distinct and exhaust all read failures. -/
theorem read_csv_errors_correct :
    data_column_names.length = 7 ∧
    (∀ (c : Nat) (full : Option (List (List String))),
      read_csv (CsvFile.ok c full) = .error .columnMismatch ↔
        c ≠ data_column_names.length) ∧
    (∀ (c : Nat) (full full' : Option (List (List String))),
      c ≠ data_column_names.length →
      read_csv (CsvFile.ok c full) = read_csv (CsvFile.ok c full')) ∧
    (read_csv CsvFile.missing = .error .readCSVError ∧
     read_csv CsvFile.malformed = .error .readCSVError ∧
     read_csv (CsvFile.ok data_column_names.length none) =
       .error .readCSVError) ∧
    (∀ (f : CsvFile) (e : CsvError), read_csv f = .error e →
      e = .columnMismatch ∨ e = .readCSVError) ∧
    CsvError.columnMismatch ≠ CsvError.readCSVError := by
  refine ⟨by rfl, ?_, ?_, ⟨rfl, rfl, by simp [read_csv]⟩, ?_, by decide⟩
  · intro c full
    simp only [read_csv]
    split_ifs with h
    · simp [h]
    · rcases full with _ | rows <;> simp [h]
  · intro c full full' h
    simp [read_csv, if_pos h]
  · intro f e _
    cases e
    · exact Or.inl rfl
    · exact Or.inr rfl

/-- Closed instance of `read_csv_errors_correct`: an 8-column first row
against the 7-column schema is a `ColumnMismatch` whatever the rest of
the file holds. -/
theorem read_csv_errors_correct_witness :
    read_csv (CsvFile.ok 8 (some [])) = .error .columnMismatch ∧
    read_csv (CsvFile.ok 8 none) = read_csv (CsvFile.ok 8 (some [["x"]])) := by
  constructor
  · exact (read_csv_errors_correct.2.1 8 (some [])).mpr (by decide)
  · exact read_csv_errors_correct.2.2.1 8 none (some [["x"]]) (by decide)

/-- C9: an import whose cleaned row count would push the subscriber
past the configured limit is rejected with the descriptive message and
commits nothing; otherwise the rows are appended and the message
reports how many were imported. -/
theorem import_data_correct :
    (∀ (users_limit records_count : Nat) (tbl df : List (List String)),
      records_count + df.length > users_limit →
      import_data users_limit records_count tbl df =
        ("Unable to load records due to the maximum record limit being reached."
          ++ "\nThe file contains " ++ toString df.length ++
          " records, and you already have " ++ toString records_count ++
          " in the database." ++
          "\nThe allowed maximum is " ++ toString users_limit ++ ".", tbl)) ∧
    (∀ (users_limit records_count : Nat) (tbl df : List (List String)),
      records_count + df.length ≤ users_limit →
      import_data users_limit records_count tbl df =
        ("Data successfully imported. Number of rows: " ++
          toString df.length ++ ".", tbl ++ df)) := by
  constructor
  · intro users_limit records_count tbl df h
    unfold import_data
    rw [if_pos h]
  · intro users_limit records_count tbl df h
    unfold import_data
    rw [if_neg (by omega)]
    by_cases hd : df.length > 0
    · rw [if_pos hd]
    · rw [if_neg hd]
      have hnil : df = [] := List.eq_nil_of_length_eq_zero (by omega)
      subst hnil
      simp

/-- Closed instance of `import_data_correct`: with limit 5, importing 2
rows over a count of 4 commits nothing, over a count of 3 commits both
rows. -/
theorem import_data_correct_witness :
    (import_data 5 4 [["r"]] [["a"], ["b"]]).2 = [["r"]] ∧
    (import_data 5 3 [["r"]] [["a"], ["b"]]).2 = [["r"], ["a"], ["b"]] := by
  constructor
  · exact congrArg Prod.snd
      (import_data_correct.1 5 4 [["r"]] [["a"], ["b"]] (by decide))
  · exact congrArg Prod.snd
      (import_data_correct.2 5 3 [["r"]] [["a"], ["b"]] (by decide))

/-- C10: below the record limit, when the mandatory birth-date field is
absent the store layer skips the insert with only a log entry, yet the
façade still answers "Record successfully added."; in general whenever
the store layer leaves the table unchanged (a swallowed insert
failure), the façade reports that same success string. -/
theorem add_record_reports_success :
    (∀ (users_limit records_count : Nat)
       (tbl : List (List (String × List Char)))
       (data : List (String × List Char)),
      records_count + 1 ≤ users_limit →
      lookupField data date_column = none →
      operator_add_record users_limit records_count tbl data =
        ("Record successfully added.", tbl)) ∧
    (∀ (users_limit records_count : Nat)
       (tbl : List (List (String × List Char)))
       (data : List (String × List Char)),
      records_count + 1 ≤ users_limit →
      tg_add_record tbl data = tbl →
      operator_add_record users_limit records_count tbl data =
        ("Record successfully added.", tbl)) := by
  have hgen : ∀ (users_limit records_count : Nat)
      (tbl : List (List (String × List Char)))
      (data : List (String × List Char)),
      records_count + 1 ≤ users_limit →
      tg_add_record tbl data = tbl →
      operator_add_record users_limit records_count tbl data =
        ("Record successfully added.", tbl) := by
    intro users_limit records_count tbl data hlim hskip
    unfold operator_add_record
    rw [if_neg (by omega), hskip]
  refine ⟨?_, hgen⟩
  intro users_limit records_count tbl data hlim hdate
  refine hgen users_limit records_count tbl data hlim ?_
  unfold tg_add_record
  rw [if_pos hdate]

/-- Closed instance of `add_record_reports_success`: a field map with
only a company name (no birth date) leaves the table empty but the
façade answers with the success string. -/
theorem add_record_reports_success_witness :
    operator_add_record 100 0 [] [("company", ['A', 'c', 'm', 'e'])] =
      ("Record successfully added.", []) := by
  exact add_record_reports_success.1 100 0 []
    [("company", ['A', 'c', 'm', 'e'])] (by omega) (by decide)

end BirthBot

